import Mathlib

/-!
# Verification of the vibe-maps route-segmentation core

Shallow embedding of the route-segmentation and waypoint-selection core of
the vibe-maps trip-planning application (Mapbox service module and the
route-form submit handler), with JavaScript numbers idealized as real
numbers.  The embedded functions are:

* `calculateDistance` — the Haversine great-circle distance helper;
* `segmentRoute` — partitioning a route polyline into bounded-duration
  segments (single-segment shortcut, then an accumulate-and-flush walk over
  consecutive coordinate pairs);
* `routePOIcoords` / `selectWaypoints` — the recommended-place coordinate
  validation filter of the submit handler and the 23-entry waypoint cap of
  the directions request.
-/

open Real

namespace VibeMaps

/-- A coordinate pair `(longitude, latitude)`, as in the source's
`[number, number]` tuples. -/
abbrev Coord : Type := ℝ × ℝ

/-- JavaScript `Math.atan2 (y, x)`, idealized over the reals:
the angle of the point `(x, y)`, in `(-pi, pi]`, with `atan2 0 0 = 0`. -/
noncomputable def atan2 (y x : ℝ) : ℝ :=
  if 0 < x then Real.arctan (y / x)
  else if x < 0 ∧ 0 ≤ y then Real.arctan (y / x) + Real.pi
  else if x < 0 ∧ y < 0 then Real.arctan (y / x) - Real.pi
  else if x = 0 ∧ 0 < y then Real.pi / 2
  else if x = 0 ∧ y < 0 then -(Real.pi / 2)
  else 0

/-- Haversine great-circle distance in meters between two coordinates, on a
sphere of radius 6371e3 m; embeds the source's `calculateDistance`. -/
noncomputable def calculateDistance (coord1 coord2 : Coord) : ℝ :=
  let lon1 := coord1.1
  let lat1 := coord1.2
  let lon2 := coord2.1
  let lat2 := coord2.2
  let R : ℝ := 6371e3
  let phi1 := lat1 * Real.pi / 180
  let phi2 := lat2 * Real.pi / 180
  let dphi := (lat2 - lat1) * Real.pi / 180
  let dlam := (lon2 - lon1) * Real.pi / 180
  let a := Real.sin (dphi / 2) * Real.sin (dphi / 2) +
      Real.cos phi1 * Real.cos phi2 * Real.sin (dlam / 2) * Real.sin (dlam / 2)
  let c := 2 * atan2 (Real.sqrt a) (Real.sqrt (1 - a))
  R * c

/-- The `geometry` member of a directions response; its `coordinates` array
may be absent at runtime (`undefined`), modelled with `Option`. -/
structure Geometry where
  coordinates : Option (List Coord)

/-- The source's `DirectionsResult`: aggregate `distance` (meters) and
`duration` (seconds) plus the route `geometry`; the geometry itself may be
absent at runtime, modelled with `Option`. -/
structure DirectionsResult where
  distance : ℝ
  duration : ℝ
  geometry : Option Geometry

/-- The source's `RouteSegment` record. -/
structure RouteSegment where
  startIndex : ℕ
  endIndex : ℕ
  startCoordinate : Coord
  endCoordinate : Coord
  distance : ℝ
  duration : ℝ
  coordinates : List Coord

/-- A throwaway segment used as the default of `headSeg`/`lastSeg`. -/
noncomputable def dummySeg : RouteSegment :=
  ⟨0, 0, ((0 : ℝ), (0 : ℝ)), ((0 : ℝ), (0 : ℝ)), 0, 0, []⟩

/-- First segment of a list (or `dummySeg` when empty). -/
noncomputable def headSeg : List RouteSegment → RouteSegment
  | [] => dummySeg
  | s :: _ => s

/-- Last segment of a list (or `dummySeg` when empty). -/
noncomputable def lastSeg : List RouteSegment → RouteSegment
  | [] => dummySeg
  | [s] => s
  | _ :: s :: rest => lastSeg (s :: rest)

/-- The `for` loop of `segmentRoute` (source lines 168-194), walking the
coordinate list from index 1.  `coords` is the whole coordinate array,
`ratio` the route-wide distance/time ratio, `targetSec` the target segment
duration in seconds.  The structural argument is the remaining suffix
`coords.drop i`, with `prev = coords[i-1]`; `start` is
`currentSegmentStart` and `accDur`/`accDist` the running accumulators.  A
segment is flushed when the accumulated estimated duration reaches
`targetSec` or the walk is at the final index. -/
noncomputable def segmentLoop (coords : List Coord) (ratio targetSec : ℝ) :
    Coord → List Coord → ℕ → ℕ → ℝ → ℝ → List RouteSegment
  | _, [], _, _, _, _ => []
  | prev, c :: rest, i, start, accDur, accDist =>
    let segmentDistance := calculateDistance prev c
    let estimatedDuration := segmentDistance / ratio
    let accDur2 := accDur + estimatedDuration
    let accDist2 := accDist + segmentDistance
    if targetSec ≤ accDur2 ∨ i = coords.length - 1 then
      ⟨start, i, coords.getD start ((0 : ℝ), (0 : ℝ)), coords.getD i ((0 : ℝ), (0 : ℝ)),
          accDist2, accDur2, (coords.drop start).take (i + 1 - start)⟩ ::
        segmentLoop coords ratio targetSec c rest (i + 1) i 0 0
    else
      segmentLoop coords ratio targetSec c rest (i + 1) start accDur2 accDist2

/-- The source's `segmentRoute`: guard malformed input, take the whole route
as one segment when its duration fits in `targetHours`, otherwise walk the
coordinate pairs accumulating estimated durations and flushing segments. -/
noncomputable def segmentRoute (directionsData : Option DirectionsResult)
    (targetHours : ℝ) : List RouteSegment :=
  match directionsData with
  | none => []
  | some d =>
    match d.geometry with
    | none => []
    | some g =>
      match g.coordinates with
      | none => []
      | some coords =>
        let totalDurationHours := d.duration / 3600
        let totalDistance := d.distance
        if totalDurationHours ≤ targetHours then
          [⟨0, coords.length - 1, coords.getD 0 ((0 : ℝ), (0 : ℝ)),
              coords.getD (coords.length - 1) ((0 : ℝ), (0 : ℝ)),
              totalDistance, d.duration, coords⟩]
        else
          let targetDurationSeconds := targetHours * 3600
          let ratio := totalDistance / d.duration
          match coords with
          | [] => []
          | c0 :: cs => segmentLoop coords ratio targetDurationSeconds c0 cs 1 0 0 0

/-- Total Haversine length of a polyline: the sum of `calculateDistance`
over consecutive coordinate pairs. -/
noncomputable def polylineDist : List Coord → ℝ
  | a :: b :: rest => calculateDistance a b + polylineDist (b :: rest)
  | _ => 0

/-- A recommended place from the external recommender; only its optional
coordinate matters to the waypoint pipeline.  The coordinate is a raw
number array of arbitrary length (the code checks the length). -/
structure RecommendedPlace where
  coordinate : Option (List ℝ)

/-- The validity test applied to each constructed POI coordinate by the
submit handler's filter: exactly two components, both nonzero.  (After the
construction step the coordinate is always a present array, so the code's
initial truthiness test on it is vacuous.) -/
noncomputable def validCoord (c : List ℝ) : Bool :=
  decide (c.length = 2 ∧ c.getD 0 0 ≠ 0 ∧ c.getD 1 0 ≠ 0)

/-- The submit handler's POI construction and validation (source
`handleSubmit`): each place's coordinate defaults to `[0, 0]` when absent,
then entries are kept only when they pass `validCoord`. -/
noncomputable def routePOIcoords (places : List RecommendedPlace) : List (List ℝ) :=
  (places.map (fun p => p.coordinate.getD [0, 0])).filter validCoord

/-- The waypoint list actually forwarded to the directions request: the
validated coordinates, capped at 23 entries (`waypoints.slice(0, 23)` in
`getDirections`, reserving 2 of Mapbox's 25 stops for origin and
destination). -/
noncomputable def selectWaypoints (places : List RecommendedPlace) : List (List ℝ) :=
  (routePOIcoords places).take 23

/-! ## Basic facts about the distance helper -/

/-- The squared-sine-sum inside the Haversine formula is symmetric in the
two coordinates: negating a difference does not change a squared sine, and
the cosine product commutes. -/
theorem hav_sum_symm (lon1 lat1 lon2 lat2 : ℝ) :
    Real.sin ((lat2 - lat1) * Real.pi / 180 / 2) *
        Real.sin ((lat2 - lat1) * Real.pi / 180 / 2) +
      Real.cos (lat1 * Real.pi / 180) * Real.cos (lat2 * Real.pi / 180) *
        Real.sin ((lon2 - lon1) * Real.pi / 180 / 2) *
        Real.sin ((lon2 - lon1) * Real.pi / 180 / 2) =
    Real.sin ((lat1 - lat2) * Real.pi / 180 / 2) *
        Real.sin ((lat1 - lat2) * Real.pi / 180 / 2) +
      Real.cos (lat2 * Real.pi / 180) * Real.cos (lat1 * Real.pi / 180) *
        Real.sin ((lon1 - lon2) * Real.pi / 180 / 2) *
        Real.sin ((lon1 - lon2) * Real.pi / 180 / 2) := by
  have h : ∀ x y : ℝ,
      Real.sin ((x - y) * Real.pi / 180 / 2) = -Real.sin ((y - x) * Real.pi / 180 / 2) := by
    intro x y
    rw [show (x - y) * Real.pi / 180 / 2 = -((y - x) * Real.pi / 180 / 2) by ring,
      Real.sin_neg]
  rw [h lat2 lat1, h lon2 lon1]
  ring

/-- C9: the Haversine distance function is symmetric:
`calculateDistance a b = calculateDistance b a` for all coordinates. -/
theorem calculateDistance_symm (c1 c2 : Coord) :
    calculateDistance c1 c2 = calculateDistance c2 c1 := by
  simp only [calculateDistance]
  rw [hav_sum_symm]

/-! ## The malformed-route guard -/

/-- C5: a malformed route input — the whole directions value absent, its
geometry absent, or the geometry's coordinate array absent — makes
`segmentRoute` return the empty segment list (never an error), for every
target duration and every distance/duration value. -/
theorem segmentRoute_malformed (t dist dur : ℝ) :
    segmentRoute none t = [] ∧
      segmentRoute (some ⟨dist, dur, none⟩) t = [] ∧
      segmentRoute (some ⟨dist, dur, some ⟨none⟩⟩) t = [] :=
  ⟨rfl, rfl, rfl⟩

/-! ## The single-segment shortcut -/

/-- C6: when the route's duration in hours fits within `targetHours`,
`segmentRoute` returns exactly one segment spanning the whole route, with
the route's own distance and duration and its full coordinate sequence. -/
theorem segmentRoute_single (d : DirectionsResult) (coords : List Coord) (t : ℝ)
    (hg : d.geometry = some ⟨some coords⟩) (hfit : d.duration / 3600 ≤ t)
    (hlen : 2 ≤ coords.length) :
    segmentRoute (some d) t =
      [⟨0, coords.length - 1, coords.getD 0 ((0 : ℝ), (0 : ℝ)),
        coords.getD (coords.length - 1) ((0 : ℝ), (0 : ℝ)),
        d.distance, d.duration, coords⟩] := by
  obtain ⟨dist, dur, g⟩ := d
  simp only at hg
  subst hg
  simp only [segmentRoute]
  rw [if_pos hfit]

/-- Witness for C6, at the spec's own scenario 8: a three-point route of
600 km / 6 h with an 8-hour target yields the single whole-route segment. -/
theorem segmentRoute_single_witness :
    (DirectionsResult.geometry
        ⟨600000, 21600, some ⟨some [((-122.42 : ℝ), (37.77 : ℝ)),
          ((-119.5 : ℝ), (36.5 : ℝ)), ((-118.24 : ℝ), (34.05 : ℝ))]⟩⟩ =
        some ⟨some [((-122.42 : ℝ), (37.77 : ℝ)), ((-119.5 : ℝ), (36.5 : ℝ)),
          ((-118.24 : ℝ), (34.05 : ℝ))]⟩) ∧
      ((21600 : ℝ) / 3600 ≤ 8) ∧
      (2 ≤ ([((-122.42 : ℝ), (37.77 : ℝ)), ((-119.5 : ℝ), (36.5 : ℝ)),
        ((-118.24 : ℝ), (34.05 : ℝ))] : List Coord).length) ∧
      segmentRoute (some ⟨600000, 21600, some ⟨some [((-122.42 : ℝ), (37.77 : ℝ)),
          ((-119.5 : ℝ), (36.5 : ℝ)), ((-118.24 : ℝ), (34.05 : ℝ))]⟩⟩) 8 =
        [⟨0, ([((-122.42 : ℝ), (37.77 : ℝ)), ((-119.5 : ℝ), (36.5 : ℝ)),
            ((-118.24 : ℝ), (34.05 : ℝ))] : List Coord).length - 1,
          ([((-122.42 : ℝ), (37.77 : ℝ)), ((-119.5 : ℝ), (36.5 : ℝ)),
            ((-118.24 : ℝ), (34.05 : ℝ))] : List Coord).getD 0 ((0 : ℝ), (0 : ℝ)),
          ([((-122.42 : ℝ), (37.77 : ℝ)), ((-119.5 : ℝ), (36.5 : ℝ)),
            ((-118.24 : ℝ), (34.05 : ℝ))] : List Coord).getD
            (([((-122.42 : ℝ), (37.77 : ℝ)), ((-119.5 : ℝ), (36.5 : ℝ)),
              ((-118.24 : ℝ), (34.05 : ℝ))] : List Coord).length - 1) ((0 : ℝ), (0 : ℝ)),
          600000, 21600, [((-122.42 : ℝ), (37.77 : ℝ)), ((-119.5 : ℝ), (36.5 : ℝ)),
            ((-118.24 : ℝ), (34.05 : ℝ))]⟩] :=
  ⟨rfl, by norm_num, by simp,
    segmentRoute_single _ _ 8 rfl (by norm_num) (by simp)⟩

/-! ## Nonnegativity and the zero set of the distance helper -/

/-- The JavaScript `atan2` is nonnegative on the closed upper half plane. -/
theorem atan2_nonneg (y x : ℝ) (hy : 0 ≤ y) : 0 ≤ atan2 y x := by
  unfold atan2
  split_ifs with h1 h2 h3 h4 h5
  · calc (0 : ℝ) = Real.arctan 0 := Real.arctan_zero.symm
      _ ≤ Real.arctan (y / x) :=
        Real.arctan_strictMono.monotone (div_nonneg hy h1.le)
  · have := Real.neg_pi_div_two_lt_arctan (y / x)
    have hpi := Real.pi_pos
    linarith
  · exact absurd h3.2 (not_lt.mpr hy)
  · have := Real.pi_pos
    linarith
  · exact absurd h5.2 (not_lt.mpr hy)
  · exact le_refl 0

/-- The Haversine distance is always nonnegative. -/
theorem calculateDistance_nonneg (a b : Coord) : 0 ≤ calculateDistance a b := by
  simp only [calculateDistance]
  exact mul_nonneg (by norm_num)
    (mul_nonneg (by norm_num) (atan2_nonneg _ _ (Real.sqrt_nonneg _)))

/-- The Haversine distance of a coordinate to itself is zero. -/
theorem calculateDistance_self (a : Coord) : calculateDistance a a = 0 := by
  obtain ⟨lon, lat⟩ := a
  simp only [calculateDistance]
  norm_num
  simp [atan2]

/-- The amended C8: the Haversine distance is always nonnegative, and it is
zero on identical coordinate pairs.  (The converse direction of the original
claim fails: see `calculateDistance_poles_zero`.) -/
theorem calculateDistance_nonneg_self (a b : Coord) :
    0 ≤ calculateDistance a b ∧ calculateDistance a a = 0 :=
  ⟨calculateDistance_nonneg a b, calculateDistance_self a⟩

/-- Counterexample to C8 as stated: the two distinct in-range coordinates
`(0, 90)` and `(10, 90)` (both at the north pole, different longitudes)
have Haversine distance exactly 0, so 0 does not imply an identical pair. -/
theorem calculateDistance_poles_zero :
    calculateDistance ((0 : ℝ), (90 : ℝ)) ((10 : ℝ), (90 : ℝ)) = 0 ∧
      (((0 : ℝ), (90 : ℝ)) : Coord) ≠ ((10 : ℝ), (90 : ℝ)) ∧
      (-180 : ℝ) ≤ 0 ∧ (0 : ℝ) ≤ 180 ∧ (-180 : ℝ) ≤ 10 ∧ (10 : ℝ) ≤ 180 ∧
      (-90 : ℝ) ≤ 90 ∧ (90 : ℝ) ≤ 90 := by
  refine ⟨?_, ?_, by norm_num, by norm_num, by norm_num, by norm_num,
    by norm_num, by norm_num⟩
  · simp only [calculateDistance]
    norm_num
    rw [show (90 : ℝ) * Real.pi / 180 = Real.pi / 2 by ring, Real.cos_pi_div_two]
    simp [atan2]
  · intro h
    have := congrArg Prod.fst h
    norm_num at this

/-! ## Waypoint validation and the waypoint cap -/

/-- The amended C3: a recommended place survives the submit handler's
validation exactly when it carries a coordinate of length exactly 2 whose
first and second components are both nonzero (an absent coordinate is first
defaulted to `[0, 0]`, whose zero components then fail the filter); the
survivors' coordinates are kept in order.  The spec's concrete scenario
also holds. -/
theorem routePOIcoords_characterization :
    (∀ places : List RecommendedPlace,
        routePOIcoords places =
          (places.filter (fun p =>
              match p.coordinate with
              | none => false
              | some c => validCoord c)).map
            (fun p => p.coordinate.getD [0, 0])) ∧
      routePOIcoords [⟨some [0, 0]⟩, ⟨some [-100, 40]⟩, ⟨none⟩] = [[-100, 40]] := by
  have h00 : validCoord [0, 0] = false := by simp [validCoord]
  constructor
  · intro places
    induction places with
    | nil => rfl
    | cons p ps ih =>
      cases hc : p.coordinate with
      | none =>
        simp only [routePOIcoords, List.map_cons, List.filter_cons, hc,
          Option.getD_none] at ih ⊢
        simp only [h00, Bool.false_eq_true, if_false, ih]
      | some c =>
        simp only [routePOIcoords, List.map_cons, List.filter_cons, hc,
          Option.getD_some] at ih ⊢
        cases hv : validCoord c with
        | false => simp [hv, ih]
        | true => simp [hv, ih, hc]
  · simp [routePOIcoords, List.filter_cons, validCoord]

/-- Counterexample to C3 as stated: a place whose coordinate is `[0, 40]` —
present, of length 2, and different from the `[0, 0]` sentinel — is
nevertheless dropped by the code, because the filter requires each of the
two components to be individually nonzero. -/
theorem routePOIcoords_drops_zero_component :
    routePOIcoords [⟨some [(0 : ℝ), 40]⟩] = [] ∧
      some [(0 : ℝ), 40] ≠ (none : Option (List ℝ)) ∧
      ([(0 : ℝ), 40] : List ℝ).length = 2 ∧
      ([(0 : ℝ), 40] : List ℝ) ≠ [0, 0] := by
  refine ⟨?_, by simp, by simp, by norm_num⟩
  simp [routePOIcoords, validCoord]

/-- C7: the waypoint list forwarded to the directions request has at most
23 entries, is an order-preserving selection from the places' coordinates,
and truncation happens at the end: the forwarded list followed by the
dropped tail of validated coordinates is exactly the validated list. -/
theorem selectWaypoints_spec (places : List RecommendedPlace) :
    (selectWaypoints places).length ≤ 23 ∧
      (selectWaypoints places).Sublist
        (places.map (fun p => p.coordinate.getD [0, 0])) ∧
      selectWaypoints places ++ (routePOIcoords places).drop 23 =
        routePOIcoords places := by
  refine ⟨?_, ?_, ?_⟩
  · simp [selectWaypoints]
  · exact (List.take_sublist _ _).trans (List.filter_sublist _)
  · exact List.take_append_drop 23 (routePOIcoords places)

/-! ## Invariants of the segmentation walk

The walk `segmentLoop coords ratio targetSec prev L i start accDur accDist`
is always invoked with `L = coords.drop i` and `prev = coords[i - 1]`; the
only part of that invariant the structural lemmas need is the length
equation `i + L.length = coords.length`, which ties the code's
final-index test `i = coords.length - 1` to `L` being the last suffix. -/

/-- While coordinates remain, the walk emits at least one segment: the
final-index test forces a flush at the last coordinate. -/
theorem segmentLoop_ne_nil (coords : List Coord) (ratio targetSec : ℝ)
    (prev : Coord) (L : List Coord) (i start : ℕ) (accDur accDist : ℝ)
    (hi : i + L.length = coords.length) (hL : L ≠ []) :
    segmentLoop coords ratio targetSec prev L i start accDur accDist ≠ [] := by
  induction L generalizing prev i start accDur accDist with
  | nil => exact absurd rfl hL
  | cons c rest ih =>
    simp only [segmentLoop]
    split_ifs with h
    · exact List.cons_ne_nil _ _
    · have hrest : rest ≠ [] := by
        intro he
        subst he
        simp only [List.length_cons, List.length_nil] at hi
        exact h (Or.inr (by omega))
      exact ih c (i + 1) start _ _ (by simp at hi ⊢; omega) hrest

/-- Structure of the walk's output: the first segment starts at `start`,
the last segment ends at the final coordinate index, and each segment ends
where the next one starts. -/
theorem segmentLoop_chain (coords : List Coord) (ratio targetSec : ℝ)
    (prev : Coord) (L : List Coord) (i start : ℕ) (accDur accDist : ℝ)
    (hi : i + L.length = coords.length) (hL : L ≠ []) :
    (headSeg (segmentLoop coords ratio targetSec prev L i start accDur accDist)).startIndex
        = start ∧
      (lastSeg (segmentLoop coords ratio targetSec prev L i start accDur accDist)).endIndex
        = coords.length - 1 ∧
      List.Chain' (fun a b => a.endIndex = b.startIndex)
        (segmentLoop coords ratio targetSec prev L i start accDur accDist) := by
  induction L generalizing prev i start accDur accDist with
  | nil => exact absurd rfl hL
  | cons c rest ih =>
    simp only [segmentLoop]
    split_ifs with h
    · by_cases hrest : rest = []
      · subst hrest
        simp only [List.length_cons, List.length_nil] at hi
        refine ⟨rfl, ?_, ?_⟩
        · simp only [segmentLoop, lastSeg]
          omega
        · simp only [segmentLoop]
          exact List.chain'_singleton _
      · have hi' : (i + 1) + rest.length = coords.length := by
          simp only [List.length_cons] at hi
          omega
        obtain ⟨ih1, ih2, ih3⟩ := ih c (i + 1) i 0 0 hi' hrest
        have htail := segmentLoop_ne_nil coords ratio targetSec c rest (i + 1) i 0 0
          hi' hrest
        obtain ⟨tseg, ts, hts⟩ :=
          List.exists_cons_of_ne_nil htail
        rw [hts] at ih1 ih2 ih3 ⊢
        simp only [headSeg] at ih1
        refine ⟨rfl, ?_, ?_⟩
        · simp only [lastSeg]
          exact ih2
        · rw [List.chain'_cons]
          exact ⟨ih1.symm, ih3⟩
    · have hrest : rest ≠ [] := by
        intro he
        subst he
        simp only [List.length_cons, List.length_nil] at hi
        exact h (Or.inr (by omega))
      exact ih c (i + 1) start _ _ (by simp at hi ⊢; omega) hrest

/-- Index bounds of emitted segments: when the walk's current index is
strictly past the pending segment start, every emitted segment has
`startIndex < endIndex ≤ coords.length - 1`. -/
theorem segmentLoop_bounds (coords : List Coord) (ratio targetSec : ℝ)
    (prev : Coord) (L : List Coord) (i start : ℕ) (accDur accDist : ℝ)
    (hi : i + L.length = coords.length) (hstart : start < i) :
    ∀ s ∈ segmentLoop coords ratio targetSec prev L i start accDur accDist,
      s.startIndex < s.endIndex ∧ s.endIndex ≤ coords.length - 1 := by
  induction L generalizing prev i start accDur accDist with
  | nil => intro s hs; simp [segmentLoop] at hs
  | cons c rest ih =>
    intro s hs
    simp only [segmentLoop] at hs
    split_ifs at hs with h
    · rcases List.mem_cons.mp hs with hhead | htail
      · subst hhead
        simp only [List.length_cons] at hi
        refine ⟨hstart, ?_⟩
        show i ≤ coords.length - 1
        omega
      · exact ih c (i + 1) i 0 0 (by simp at hi ⊢; omega) (by omega) s htail
    · exact ih c (i + 1) start _ _ (by simp at hi ⊢; omega)
        (Nat.lt_succ_of_lt hstart) s hs

/-- Distance bookkeeping of the walk: the segment distances it emits sum to
the pending accumulator plus the Haversine length of the remaining
polyline. -/
theorem segmentLoop_sum_dist (coords : List Coord) (ratio targetSec : ℝ)
    (prev : Coord) (L : List Coord) (i start : ℕ) (accDur accDist : ℝ)
    (hi : i + L.length = coords.length) (hL : L ≠ []) :
    ((segmentLoop coords ratio targetSec prev L i start accDur accDist).map
        RouteSegment.distance).sum = accDist + polylineDist (prev :: L) := by
  induction L generalizing prev i start accDur accDist with
  | nil => exact absurd rfl hL
  | cons c rest ih =>
    simp only [segmentLoop]
    split_ifs with h
    · by_cases hrest : rest = []
      · subst hrest
        simp only [segmentLoop, List.map_cons, List.map_nil, List.sum_cons,
          List.sum_nil, polylineDist]
        ring
      · have hi' : (i + 1) + rest.length = coords.length := by
          simp only [List.length_cons] at hi
          omega
        rw [List.map_cons, List.sum_cons, ih c (i + 1) i 0 0 hi' hrest]
        simp only [polylineDist]
        ring
    · have hrest : rest ≠ [] := by
        intro he
        subst he
        simp only [List.length_cons, List.length_nil] at hi
        exact h (Or.inr (by omega))
      rw [ih c (i + 1) start _ _ (by simp at hi ⊢; omega) hrest]
      simp only [polylineDist]
      ring

/-- Duration lower bound of the walk: every emitted segment other than the
final one was flushed because its accumulated estimated duration reached
the target. -/
theorem segmentLoop_dropLast_duration (coords : List Coord) (ratio targetSec : ℝ)
    (prev : Coord) (L : List Coord) (i start : ℕ) (accDur accDist : ℝ)
    (hi : i + L.length = coords.length) :
    ∀ s ∈ (segmentLoop coords ratio targetSec prev L i start accDur accDist).dropLast,
      targetSec ≤ s.duration := by
  induction L generalizing prev i start accDur accDist with
  | nil => intro s hs; simp [segmentLoop] at hs
  | cons c rest ih =>
    intro s hs
    simp only [segmentLoop] at hs
    split_ifs at hs with h
    · by_cases hrest : rest = []
      · subst hrest
        simp only [segmentLoop, List.dropLast_single] at hs
        exact absurd hs (List.not_mem_nil s)
      · have hi' : (i + 1) + rest.length = coords.length := by
          simp only [List.length_cons] at hi
          omega
        have htail := segmentLoop_ne_nil coords ratio targetSec c rest (i + 1) i 0 0
          hi' hrest
        obtain ⟨tseg, ts, hts⟩ := List.exists_cons_of_ne_nil htail
        rw [hts, List.dropLast_cons₂, List.mem_cons] at hs
        rcases hs with hhead | htail2
        · subst hhead
          have hnotlast : i ≠ coords.length - 1 := by
            simp only [List.length_cons] at hi
            have : rest.length ≠ 0 := fun he => hrest (List.length_eq_zero.mp he)
            omega
          rcases h with hflush | hend
          · exact hflush
          · exact absurd hend hnotlast
        · have := ih c (i + 1) i 0 0 hi'
          rw [hts] at this
          exact this s htail2
    · exact ih c (i + 1) start _ _ (by simp at hi ⊢; omega) s hs

/-! ## Claim theorems about `segmentRoute`'s multi-segment behaviour -/

/-- C2: for an accepted route (present geometry with at least two
coordinates, positive distance and duration) and a positive target, the
returned segments are contiguous and index-exhaustive: the list is
nonempty, its first segment starts at index 0, its last segment ends at
the final coordinate index, and each segment ends where the next starts. -/
theorem segmentRoute_contiguous (d : DirectionsResult) (coords : List Coord) (t : ℝ)
    (hg : d.geometry = some ⟨some coords⟩) (hlen : 2 ≤ coords.length)
    (hdist : 0 < d.distance) (hdur : 0 < d.duration) (ht : 0 < t) :
    segmentRoute (some d) t ≠ [] ∧
      (headSeg (segmentRoute (some d) t)).startIndex = 0 ∧
      (lastSeg (segmentRoute (some d) t)).endIndex = coords.length - 1 ∧
      List.Chain' (fun a b => a.endIndex = b.startIndex) (segmentRoute (some d) t) := by
  obtain ⟨dist, dur, g⟩ := d
  simp only at hg
  subst hg
  simp only [segmentRoute]
  by_cases hfit : dur / 3600 ≤ t
  · rw [if_pos hfit]
    exact ⟨List.cons_ne_nil _ _, rfl, rfl, List.chain'_singleton _⟩
  · rw [if_neg hfit]
    match coords, hlen with
    | c0 :: c1 :: cs, _ =>
      have hi : 1 + (c1 :: cs).length = (c0 :: c1 :: cs).length := by
        simp only [List.length_cons]
        omega
      have hne := segmentLoop_ne_nil (c0 :: c1 :: cs) (dist / dur) (t * 3600)
        c0 (c1 :: cs) 1 0 0 0 hi (List.cons_ne_nil _ _)
      have hch := segmentLoop_chain (c0 :: c1 :: cs) (dist / dur) (t * 3600)
        c0 (c1 :: cs) 1 0 0 0 hi (List.cons_ne_nil _ _)
      exact ⟨hne, hch.1, hch.2.1, hch.2.2⟩

/-- Witness for C2: a two-point accepted route over a 1-hour target, with
duration 7200 s, distance 1000 m. -/
theorem segmentRoute_contiguous_witness :
    (DirectionsResult.geometry
        ⟨1000, 7200, some ⟨some [((0 : ℝ), (0 : ℝ)), ((0 : ℝ), (0 : ℝ))]⟩⟩ =
        some ⟨some [((0 : ℝ), (0 : ℝ)), ((0 : ℝ), (0 : ℝ))]⟩) ∧
      (2 ≤ ([((0 : ℝ), (0 : ℝ)), ((0 : ℝ), (0 : ℝ))] : List Coord).length) ∧
      ((0 : ℝ) < 1000) ∧ ((0 : ℝ) < 7200) ∧ ((0 : ℝ) < 1) ∧
      (segmentRoute (some ⟨1000, 7200,
          some ⟨some [((0 : ℝ), (0 : ℝ)), ((0 : ℝ), (0 : ℝ))]⟩⟩) 1 ≠ [] ∧
        (headSeg (segmentRoute (some ⟨1000, 7200,
          some ⟨some [((0 : ℝ), (0 : ℝ)), ((0 : ℝ), (0 : ℝ))]⟩⟩) 1)).startIndex = 0 ∧
        (lastSeg (segmentRoute (some ⟨1000, 7200,
          some ⟨some [((0 : ℝ), (0 : ℝ)), ((0 : ℝ), (0 : ℝ))]⟩⟩) 1)).endIndex =
          ([((0 : ℝ), (0 : ℝ)), ((0 : ℝ), (0 : ℝ))] : List Coord).length - 1 ∧
        List.Chain' (fun a b => a.endIndex = b.startIndex)
          (segmentRoute (some ⟨1000, 7200,
            some ⟨some [((0 : ℝ), (0 : ℝ)), ((0 : ℝ), (0 : ℝ))]⟩⟩) 1)) :=
  ⟨rfl, by simp, by norm_num, by norm_num, by norm_num,
    segmentRoute_contiguous _ _ 1 rfl (by simp) (by norm_num) (by norm_num)
      (by norm_num)⟩

/-- The amended C4: for an input whose geometry is present with at least
two coordinates, every returned segment satisfies
`startIndex < endIndex ≤ coords.length - 1` (with `0 ≤ startIndex` holding
in `ℕ`); single-coordinate routes violate the original unrestricted claim,
see `segmentRoute_singleton_degenerate`. -/
theorem segmentRoute_index_bounds (d : DirectionsResult) (coords : List Coord) (t : ℝ)
    (hg : d.geometry = some ⟨some coords⟩) (hlen : 2 ≤ coords.length) :
    ∀ s ∈ segmentRoute (some d) t,
      s.startIndex < s.endIndex ∧ s.endIndex ≤ coords.length - 1 := by
  obtain ⟨dist, dur, g⟩ := d
  simp only at hg
  subst hg
  intro s hs
  simp only [segmentRoute] at hs
  split_ifs at hs with hfit
  · rw [List.mem_singleton] at hs
    subst hs
    refine ⟨?_, ?_⟩
    · show 0 < coords.length - 1
      omega
    · show coords.length - 1 ≤ coords.length - 1
      exact le_refl _
  · match coords, hlen, hs with
    | c0 :: c1 :: cs, _, hs =>
      exact segmentLoop_bounds (c0 :: c1 :: cs) (dist / dur) (t * 3600)
        c0 (c1 :: cs) 1 0 0 0 (by simp only [List.length_cons]; omega) (by omega) s hs

/-- Witness for C4 (amended), at the same two-point route as the C2
witness. -/
theorem segmentRoute_index_bounds_witness :
    (DirectionsResult.geometry
        ⟨1000, 7200, some ⟨some [((0 : ℝ), (0 : ℝ)), ((0 : ℝ), (0 : ℝ))]⟩⟩ =
        some ⟨some [((0 : ℝ), (0 : ℝ)), ((0 : ℝ), (0 : ℝ))]⟩) ∧
      (2 ≤ ([((0 : ℝ), (0 : ℝ)), ((0 : ℝ), (0 : ℝ))] : List Coord).length) ∧
      (∀ s ∈ segmentRoute (some ⟨1000, 7200,
          some ⟨some [((0 : ℝ), (0 : ℝ)), ((0 : ℝ), (0 : ℝ))]⟩⟩) 1,
        s.startIndex < s.endIndex ∧
          s.endIndex ≤ ([((0 : ℝ), (0 : ℝ)), ((0 : ℝ), (0 : ℝ))] : List Coord).length - 1) :=
  ⟨rfl, by simp, segmentRoute_index_bounds _ _ 1 rfl (by simp)⟩

/-- Counterexample to C4 as stated: on a single-coordinate route (accepted
by the guard, since its geometry and coordinates are present), the
single-segment branch returns one segment with
`startIndex = endIndex = 0`, so `startIndex < endIndex` fails. -/
theorem segmentRoute_singleton_degenerate :
    (segmentRoute (some ⟨1, 0, some ⟨some [((0 : ℝ), (0 : ℝ))]⟩⟩) 5).map
        (fun s => (s.startIndex, s.endIndex)) = [(0, 0)] ∧
      ¬ ((0 : ℕ) < 0) := by
  constructor
  · simp only [segmentRoute]
    rw [if_pos (by norm_num)]
    simp
  · omega

/-- The amended C1: in the multi-segment branch, the distances of the
returned segments sum to the Haversine length of the coordinate polyline —
the accumulated per-edge estimates — which is what the algorithm actually
conserves; it is not in general the route's reported `distance`
(see `segmentRoute_sum_ne_distance`). -/
theorem segmentRoute_dist_sum (d : DirectionsResult) (coords : List Coord) (t : ℝ)
    (hg : d.geometry = some ⟨some coords⟩) (hlen : 2 ≤ coords.length)
    (hmulti : ¬ (d.duration / 3600 ≤ t)) :
    ((segmentRoute (some d) t).map RouteSegment.distance).sum = polylineDist coords := by
  obtain ⟨dist, dur, g⟩ := d
  simp only at hg
  subst hg
  simp only [segmentRoute]
  rw [if_neg hmulti]
  match coords, hlen with
  | c0 :: c1 :: cs, _ =>
    rw [segmentLoop_sum_dist (c0 :: c1 :: cs) (dist / dur) (t * 3600)
      c0 (c1 :: cs) 1 0 0 0 (by simp only [List.length_cons]; omega) (List.cons_ne_nil _ _)]
    ring

/-- Witness for C1 (amended), on the two-point route of the C2 witness. -/
theorem segmentRoute_dist_sum_witness :
    (DirectionsResult.geometry
        ⟨1000, 7200, some ⟨some [((0 : ℝ), (0 : ℝ)), ((0 : ℝ), (0 : ℝ))]⟩⟩ =
        some ⟨some [((0 : ℝ), (0 : ℝ)), ((0 : ℝ), (0 : ℝ))]⟩) ∧
      (2 ≤ ([((0 : ℝ), (0 : ℝ)), ((0 : ℝ), (0 : ℝ))] : List Coord).length) ∧
      ¬ ((7200 : ℝ) / 3600 ≤ 1) ∧
      ((segmentRoute (some ⟨1000, 7200,
          some ⟨some [((0 : ℝ), (0 : ℝ)), ((0 : ℝ), (0 : ℝ))]⟩⟩) 1).map
        RouteSegment.distance).sum =
        polylineDist [((0 : ℝ), (0 : ℝ)), ((0 : ℝ), (0 : ℝ))] :=
  ⟨rfl, by simp, by norm_num,
    segmentRoute_dist_sum _ _ 1 rfl (by simp) (by norm_num)⟩

/-- Counterexample to C1 as stated: an accepted route (two coordinates,
positive distance and duration, positive target forcing the multi-segment
branch) whose coordinates coincide.  Every per-edge Haversine distance is
then 0, so the segment distances sum to 0, not to the route's reported
distance of 1000 m. -/
theorem segmentRoute_sum_ne_distance :
    ((segmentRoute (some ⟨1000, 7200,
        some ⟨some [((0 : ℝ), (0 : ℝ)), ((0 : ℝ), (0 : ℝ))]⟩⟩) 1).map
      RouteSegment.distance).sum = 0 ∧
      (0 : ℝ) ≠ 1000 ∧ ((0 : ℝ) < 1000) ∧ ((0 : ℝ) < 7200) ∧ ((0 : ℝ) < 1) ∧
      (2 ≤ ([((0 : ℝ), (0 : ℝ)), ((0 : ℝ), (0 : ℝ))] : List Coord).length) := by
  refine ⟨?_, by norm_num, by norm_num, by norm_num, by norm_num, by simp⟩
  have hcd : calculateDistance ((0 : ℝ), (0 : ℝ)) ((0 : ℝ), (0 : ℝ)) = 0 :=
    calculateDistance_self _
  simp only [segmentRoute]
  rw [if_neg (by norm_num)]
  simp only [segmentLoop, hcd]
  norm_num

/-- C10: whenever the route's duration strictly exceeds the target
`targetHours * 3600` (so the multi-segment branch runs), every returned
segment except possibly the last has duration at least
`targetHours * 3600`: an interior boundary is only placed once the
accumulated estimated duration reaches the target. -/
theorem segmentRoute_nonlast_duration (d : DirectionsResult) (t : ℝ)
    (hdur : t * 3600 < d.duration) :
    ∀ s ∈ (segmentRoute (some d) t).dropLast, t * 3600 ≤ s.duration := by
  obtain ⟨dist, dur, g⟩ := d
  intro s hs
  simp only at hdur
  match g with
  | none => simp [segmentRoute] at hs
  | some ⟨none⟩ => simp [segmentRoute] at hs
  | some ⟨some coords⟩ =>
    simp only [segmentRoute] at hs
    rw [if_neg (by rw [div_le_iff₀ (by norm_num : (0 : ℝ) < 3600)]; linarith)] at hs
    match coords with
    | [] => simp at hs
    | c0 :: cs =>
      exact segmentLoop_dropLast_duration (c0 :: cs) (dist / dur) (t * 3600)
        c0 cs 1 0 0 0 (by simp only [List.length_cons]; omega) s hs

/-- Witness for C10, on the two-point route of the C2 witness: the target
is 1 hour and the route lasts 2 hours. -/
theorem segmentRoute_nonlast_duration_witness :
    ((1 : ℝ) * 3600 <
        (DirectionsResult.duration
          ⟨1000, 7200, some ⟨some [((0 : ℝ), (0 : ℝ)), ((0 : ℝ), (0 : ℝ))]⟩⟩)) ∧
      ∀ s ∈ (segmentRoute (some ⟨1000, 7200,
          some ⟨some [((0 : ℝ), (0 : ℝ)), ((0 : ℝ), (0 : ℝ))]⟩⟩) 1).dropLast,
        (1 : ℝ) * 3600 ≤ s.duration :=
  ⟨by norm_num, segmentRoute_nonlast_duration _ 1 (by norm_num)⟩

end VibeMaps
